import Mathlib

/-!
Verification of the batching, masked-loss, guided-attention, learning-rate
scheduling and checkpointing logic of the deepvoice3_pytorch training code
(`train.py`, `lrschedule.py`), shallowly embedded in Lean 4.

Sequences and spectrograms are modelled as lists (time-major) or as functions
over `Fin` index types; machine floats are modelled as rationals where the code
only adds, multiplies and divides, and as reals where it takes `exp` or
fractional powers.  Numpy calls that raise on bad shapes (`np.pad` with a
negative amount, `np.zeros` with a negative size) are modelled in `Option`.
-/

namespace DV3

/-- One utterance record: token-id sequence, mel spectrogram (rows = frames),
linear spectrogram (rows = frames).  Mirrors the tuples yielded by
`PyTorchDataset.__getitem__`. -/
structure UttRec where
  text : List ℤ
  mel : List (List ℚ)
  lin : List (List ℚ)
deriving DecidableEq

/-- `_pad(seq, max_len, constant_values)` from train.py: right-pad a 1-D
sequence to `max_len`.  `np.pad` raises when the pad amount is negative, hence
the `Option`. -/
def pad1d {α : Type} (seq : List α) (max_len : ℕ) (constant_values : α) :
    Option (List α) :=
  if seq.length ≤ max_len then
    some (seq ++ List.replicate (max_len - seq.length) constant_values)
  else none

/-- `_pad_2d(x, max_len, b_pad)` from train.py: prepend `b_pad` zero rows and
append zero rows until the row count is `max_len`.  Fails (as `np.pad` does)
when `max_len - len(x) - b_pad` is negative. -/
def pad2d (x : List (List ℚ)) (max_len : ℕ) (b_pad : ℕ) :
    Option (List (List ℚ)) :=
  let w := (x.headD []).length
  if x.length + b_pad ≤ max_len then
    some (List.replicate b_pad (List.replicate w 0) ++ x ++
      List.replicate (max_len - x.length - b_pad) (List.replicate w 0))
  else none

/-- `np.zeros(n)` for a possibly negative requested size (Python's
`len(x[1]) // r // downsample_step - 1` can be `-1`): numpy raises on a
negative dimension. -/
def npzeros (n : ℤ) : Option (List ℚ) :=
  if 0 ≤ n then some (List.replicate n.toNat 0) else none

/-- The round-up-to-a-multiple step of `collate_fn`:
`if m % step != 0: m += step - m % step`. -/
def round_to (m step : ℕ) : ℕ :=
  if m % step ≠ 0 then m + (step - m % step) else m

/-- `max_target_len` as computed by `collate_fn`: the raw maximum mel length,
rounded up to a multiple of `outputs_per_step` (`r`), then up to a multiple of
`downsample_step` (`ds`), then increased by `b_pad * downsample_step` leading
frames with `b_pad = r`. -/
def max_target_len_of (r ds : ℕ) (target_lengths : List ℕ) : ℕ :=
  round_to (round_to (target_lengths.foldr max 0) r) ds + r * ds

/-- The per-utterance "done" flag row of `collate_fn`:
`_pad(np.zeros(len(x[1]) // r // downsample_step - 1), max_decoder_target_len,
constant_values=1)`.  `L` is the raw mel length, `mdtl` the decoder-domain
padded length. -/
def done_flags (r ds L mdtl : ℕ) : Option (List ℚ) :=
  (npzeros ((L / r / ds : ℕ) - 1)) >>= fun z => pad1d z mdtl 1

/-- Sequence a fallible map over a list (a Python list comprehension whose body
may raise). -/
def seqOpt {α β : Type} (f : α → Option β) : List α → Option (List β)
  | [] => some []
  | a :: l => (f a).bind fun b => (seqOpt f l).bind fun bs => some (b :: bs)

/-- The amended description of one "done" row: `1` from decoder step
`L / r / ds - 1` onward and `0` strictly before it, where `L` is the raw mel
length.  Since the true frames extend through decoder step
`(r * ds + L - 1) / (r * ds)` of the padded tensor, the first `1` lands on a
step that still covers true mel frames, not only on the padded tail. -/
def done_amended (r ds L mdtl : ℕ) : List ℚ :=
  (List.range mdtl).map (fun i => if i + 1 < L / r / ds then 0 else 1)

/-- Decoder step `i` covers true mel frames (the notion of a "real decoder
step"): its block of `r * ds` frames — rows `i*(r*ds)` up to
`(i+1)*(r*ds) - 1` of the padded mel tensor — intersects rows `r*ds` up to
`r*ds + L - 1`, which hold the utterance's true mel frames (`collate_fn`
places `b_pad * ds = r * ds` zero rows first). -/
def step_covers_true_frames (r ds L i : ℕ) : Bool :=
  decide (i * (r * ds) < r * ds + L ∧ r * ds < (i + 1) * (r * ds))

/-- `max_input_len = max(input_lengths)` in `collate_fn`. -/
def input_max (batch : List UttRec) : ℕ :=
  (batch.map (fun x => x.text.length)).foldr max 0

/-- The padded output (`max_target_len`) for a concrete batch. -/
def mtl_of (r ds : ℕ) (batch : List UttRec) : ℕ :=
  max_target_len_of r ds (batch.map (fun x => x.mel.length))

/-- `max_decoder_target_len = max_target_len // r // downsample_step`. -/
def mdtl_of (r ds : ℕ) (batch : List UttRec) : ℕ :=
  mtl_of r ds batch / r / ds

/-- The batch structure returned by `collate_fn`. -/
structure CollatedBatch where
  x_batch : List (List ℤ)
  input_lengths : List ℕ
  mel_batch : List (List (List ℚ))
  y_batch : List (List (List ℚ))
  text_positions : List (List ℤ)
  frame_positions : List (List ℕ)
  done : List (List ℚ)
  target_lengths : List ℕ

/-- `collate_fn(batch)` from train.py, with `r = hparams.outputs_per_step` and
`ds = hparams.downsample_step` passed explicitly.  Returns `none` exactly when
one of the embedded numpy calls would raise. -/
def collate_fn (r ds : ℕ) (batch : List UttRec) : Option CollatedBatch :=
  (seqOpt (fun x => pad1d x.text (input_max batch) 0) batch).bind fun a =>
  (seqOpt (fun x => pad2d x.mel (mtl_of r ds batch) r) batch).bind fun b =>
  (seqOpt (fun x => pad2d x.lin (mtl_of r ds batch) r) batch).bind fun c =>
  (seqOpt (fun x => pad1d ((List.range x.text.length).map (fun i : ℕ => (i : ℤ) + 1))
      (input_max batch) 0) batch).bind fun tpos =>
  (seqOpt (fun x => done_flags r ds x.mel.length (mdtl_of r ds batch)) batch).bind
    fun done =>
  some ⟨a, batch.map (fun x => x.text.length), b, c, tpos,
    batch.map (fun _ => (List.range (mdtl_of r ds batch)).map (fun i => i + 1)),
    done, batch.map (fun x => x.mel.length)⟩

/-- Every mel sequence in the batch has at least `r * ds` frames. -/
def mels_long_enough (r ds : ℕ) (batch : List UttRec) : Prop :=
  ∀ x ∈ batch, r * ds ≤ x.mel.length

/-- The utterance-record invariant: the linear and mel spectrograms of one
utterance have the same frame count. -/
def lin_matches_mel (batch : List UttRec) : Prop :=
  ∀ x ∈ batch, x.lin.length = x.mel.length

instance (r ds : ℕ) (batch : List UttRec) :
    Decidable (mels_long_enough r ds batch) :=
  List.decidableBAll _ batch

instance (batch : List UttRec) : Decidable (lin_matches_mel batch) :=
  List.decidableBAll _ batch

/-! ### Masked L1 loss (`sequence_mask`, `MaskedL1Loss.forward`) -/

/-- Model of `nn.L1Loss(size_average=False)(x, y)` on a `[B, T, D]` tensor:
the sum of absolute elementwise differences. -/
def l1_loss_sum (B T D : ℕ) (x y : Fin B → Fin T → Fin D → ℚ) : ℚ :=
  ∑ b : Fin B, ∑ t : Fin T, ∑ d : Fin D, |x b t d - y b t d|

/-- Model of plain `nn.L1Loss()(x, y)`: the mean absolute error. -/
def l1_mean (B T D : ℕ) (x y : Fin B → Fin T → Fin D → ℚ) : ℚ :=
  l1_loss_sum B T D x y / ((B : ℚ) * (T : ℚ) * (D : ℚ))

/-- Model of `sequence_mask(sequence_length, max_len)` from train.py: entry
`(b, t)` is `1.0` when `t < sequence_length[b]` and `0.0` otherwise (the
`max_len` argument is the `T` index bound). -/
def sequence_mask (B T : ℕ) (sequence_length : Fin B → ℕ) :
    Fin B → Fin T → ℚ :=
  fun b t => if (t : ℕ) < sequence_length b then 1 else 0

/-- Model of `MaskedL1Loss.forward(input, target, mask=mask)`: the `[B, T, 1]`
mask is expanded over `D` (`mask_ = mask.expand_as(input)`), the summed L1
loss of `input * mask_` against `target * mask_` is divided by
`mask_.sum()`. -/
def maskedL1_forward (B T D : ℕ) (input target : Fin B → Fin T → Fin D → ℚ)
    (mask : Fin B → Fin T → ℚ) : ℚ :=
  l1_loss_sum B T D (fun b t d => input b t d * mask b t)
      (fun b t d => target b t d * mask b t)
    / ∑ b : Fin B, ∑ t : Fin T, ∑ _d : Fin D, mask b t

/-- Model of `MaskedL1Loss.forward(input, target, lengths=lengths)`: the mask
is built by `sequence_mask(lengths, max_len).unsqueeze(-1)`. -/
def maskedL1_forward_lengths (B T D : ℕ)
    (input target : Fin B → Fin T → Fin D → ℚ) (lengths : Fin B → ℕ) : ℚ :=
  maskedL1_forward B T D input target (sequence_mask B T lengths)

/-- Model of the full `MaskedL1Loss.forward(input, target, lengths, mask)`
including the error branch: raises when `lengths` and `mask` are both
`None`, otherwise builds the mask from `lengths` when no mask was passed. -/
def maskedL1_forwardE (B T D : ℕ) (input target : Fin B → Fin T → Fin D → ℚ)
    (lengths : Option (Fin B → ℕ)) (mask : Option (Fin B → Fin T → ℚ)) :
    Except String ℚ :=
  match lengths, mask with
  | none, none => Except.error "Should provide either lengths or mask"
  | some ls, none =>
      Except.ok (maskedL1_forward B T D input target (sequence_mask B T ls))
  | _, some m => Except.ok (maskedL1_forward B T D input target m)

/-- Whether an `Except` result is an error. -/
def except_is_error {ε α : Type} : Except ε α → Bool
  | Except.error _ => true
  | Except.ok _ => false

/-- The claim-side closed form for the masked loss:
`sum(|pred - target| * mask) / sum(mask broadcast over D)`. -/
def masked_l1_spec (B T D : ℕ) (input target : Fin B → Fin T → Fin D → ℚ)
    (mask : Fin B → Fin T → ℚ) : ℚ :=
  (∑ b : Fin B, ∑ t : Fin T, ∑ d : Fin D,
      |input b t d - target b t d| * mask b t)
    / ((D : ℚ) * ∑ b : Fin B, ∑ t : Fin T, mask b t)

/-- An all-ones `[B, T, 1]` mask. -/
def ones_mask (B T : ℕ) : Fin B → Fin T → ℚ := fun _ _ => 1

/-- A 0/1-valued mask, as the claim assumes. -/
def binary_mask (B T : ℕ) (mask : Fin B → Fin T → ℚ) : Prop :=
  ∀ b t, mask b t = 0 ∨ mask b t = 1

instance (B T : ℕ) (mask : Fin B → Fin T → ℚ) :
    Decidable (binary_mask B T mask) := by
  unfold binary_mask
  infer_instance

/-- Two `[B, T, D]` tensors agree at every valid position (`t` below the
per-batch-element length) and may differ only on padding. -/
def agree_on_valid (B T D : ℕ) (lengths : Fin B → ℕ)
    (x y : Fin B → Fin T → Fin D → ℚ) : Prop :=
  ∀ (b : Fin B) (t : Fin T) (d : Fin D),
    (t : ℕ) < lengths b → x b t d = y b t d

instance (B T D : ℕ) (lengths : Fin B → ℕ)
    (x y : Fin B → Fin T → Fin D → ℚ) :
    Decidable (agree_on_valid B T D lengths x y) := by
  unfold agree_on_valid
  infer_instance

/-! ### Loss alignment in the training loop -/

/-- Python `x[:-r]` along the time axis of one batch element (for `r > 0`):
all rows but the last `r`. -/
def slice_drop_last {α : Type} (r : ℕ) (x : List α) : List α :=
  x.take (x.length - r)

/-- Python `x[r:]` along the time axis of one batch element: all rows from
row `r` on. -/
def slice_drop_first {α : Type} (r : ℕ) (x : List α) : List α :=
  x.drop r

/-- The (prediction, target) pair the training loop passes to `spec_loss` for
the mel loss: `(mel_outputs[:, :-r, :], mel[:, r:, :])`. -/
def mel_loss_inputs (r : ℕ) (mel_outputs mel : List (List (List ℚ))) :
    List (List (List ℚ)) × List (List (List ℚ)) :=
  (mel_outputs.map (slice_drop_last r), mel.map (slice_drop_first r))

/-- The (prediction, target) pair the training loop passes to `spec_loss` for
the linear loss: `(linear_outputs[:, :-r, :], y[:, r:, :])`. -/
def linear_loss_inputs (r : ℕ) (linear_outputs y : List (List (List ℚ))) :
    List (List (List ℚ)) × List (List (List ℚ)) :=
  (linear_outputs.map (slice_drop_last r), y.map (slice_drop_first r))

/-- The pair the training loop passes to `binary_criterion` for the done
loss: `binary_criterion(done_hat, done)` — both tensors whole. -/
def done_loss_inputs (done_hat done : List (List (List ℚ))) :
    List (List (List ℚ)) × List (List (List ℚ)) :=
  (done_hat, done)

/-! ### Guided attention -/

/-- Model of `guided_attention(N, max_N, T, max_T, g)` from train.py: a
`max_N × max_T` matrix, `W[n, t] = 1 - exp(-(n/N - t/T)**2 / (2*g*g))` for
`n < N`, `t < T`, and `0` (the `np.zeros` initialisation) elsewhere. -/
noncomputable def guided_attention (N max_N T max_T : ℕ) (g : ℝ) :
    Fin max_N → Fin max_T → ℝ :=
  fun n t =>
    if (n : ℕ) < N ∧ (t : ℕ) < T then
      1 - Real.exp (-(((n : ℕ) : ℝ) / (N : ℝ) - ((t : ℕ) : ℝ) / (T : ℝ)) ^ 2
        / (2 * g * g))
    else 0

/-- Every in-range cell of the guided attention matrix carries the claimed
formula. -/
def ga_formula_cells (N max_N T max_T : ℕ) (g : ℝ) : Prop :=
  ∀ (n : Fin max_N) (t : Fin max_T), (n : ℕ) < N → (t : ℕ) < T →
    guided_attention N max_N T max_T g n t
      = 1 - Real.exp (-(((n : ℕ) : ℝ) / (N : ℝ) - ((t : ℕ) : ℝ) / (T : ℝ)) ^ 2
          / (2 * g * g))

/-- Every padded cell of the guided attention matrix is exactly zero. -/
def ga_padded_zero (N max_N T max_T : ℕ) (g : ℝ) : Prop :=
  ∀ (n : Fin max_N) (t : Fin max_T), ¬((n : ℕ) < N ∧ (t : ℕ) < T) →
    guided_attention N max_N T max_T g n t = 0

/-- Every entry of the guided attention matrix lies in `[0, 1)`. -/
def ga_in_range (N max_N T max_T : ℕ) (g : ℝ) : Prop :=
  ∀ (n : Fin max_N) (t : Fin max_T),
    0 ≤ guided_attention N max_N T max_T g n t ∧
    guided_attention N max_N T max_T g n t < 1

/-- The guided attention matrix vanishes on the exact diagonal
`n/N = t/T`. -/
def ga_diag_zero (N max_N T max_T : ℕ) (g : ℝ) : Prop :=
  ∀ (n : Fin max_N) (t : Fin max_T), (n : ℕ) < N → (t : ℕ) < T →
    ((n : ℕ) : ℝ) / (N : ℝ) = ((t : ℕ) : ℝ) / (T : ℝ) →
    guided_attention N max_N T max_T g n t = 0

/-- On in-range cells the guided attention weight strictly increases with the
squared normalized distance from the diagonal. -/
def ga_mono (N max_N T max_T : ℕ) (g : ℝ) : Prop :=
  ∀ (n n' : Fin max_N) (t t' : Fin max_T),
    (n : ℕ) < N → (t : ℕ) < T → (n' : ℕ) < N → (t' : ℕ) < T →
    (((n : ℕ) : ℝ) / (N : ℝ) - ((t : ℕ) : ℝ) / (T : ℝ)) ^ 2
      < (((n' : ℕ) : ℝ) / (N : ℝ) - ((t' : ℕ) : ℝ) / (T : ℝ)) ^ 2 →
    guided_attention N max_N T max_T g n t
      < guided_attention N max_N T max_T g n' t'

/-! ### Learning-rate schedule -/

/-- Model of `noam_learning_rate_decay(init_lr, global_step)` from
lrschedule.py: `init_lr * warmup_steps**0.5 * min(step * warmup_steps**-1.5,
step**-0.5)` with `warmup_steps = 4000` and `step = global_step + 1`. -/
noncomputable def noam_learning_rate_decay (init_lr : ℝ) (global_step : ℕ) :
    ℝ :=
  init_lr * (4000 : ℝ) ^ (0.5 : ℝ) *
    min (((global_step : ℝ) + 1) * (4000 : ℝ) ^ (-1.5 : ℝ))
      (((global_step : ℝ) + 1) ^ (-0.5 : ℝ))

/-! ### Checkpoint save and restore -/

/-- The single record `save_checkpoint` serializes:
`(state_dict, optimizer state, global_step, global_epoch)`.  Model and
optimizer parameter mappings are opaque types. -/
structure Checkpoint (Θ Ω : Type) where
  state_dict : Θ
  optimizer : Ω
  global_step : ℕ
  global_epoch : ℕ
deriving DecidableEq

/-- The mutable training state the `__main__` restore block writes into. -/
structure TrainState (Θ Ω : Type) where
  model : Θ
  opt : Ω
  global_step : ℕ
  global_epoch : ℕ
deriving DecidableEq

/-- Python string formatting with format spec 09d: left-pad the decimal
representation with zeros to width 9. -/
def zero_pad9 (n : ℕ) : String :=
  String.mk (List.replicate (9 - (toString n).length) '0') ++ toString n

/-- The checkpoint file name `save_checkpoint` formats (basename; the
directory join is an external `os.path.join`). -/
def checkpoint_name (gstep : ℕ) : String :=
  "checkpoint_step" ++ zero_pad9 gstep ++ ".pth"

/-- Model of `save_checkpoint(model, optimizer, step, checkpoint_dir,
epoch)`: the file name is formatted from the module-level `global_step`
(here the parameter `gstep`), the stored step is the `step` parameter; both
call sites pass the module-level `global_step` for `step`, so they
coincide. -/
def save_checkpoint {Θ Ω : Type} (model : Θ) (optimizer : Ω)
    (step epoch gstep : ℕ) : String × Checkpoint Θ Ω :=
  (checkpoint_name gstep, ⟨model, optimizer, step, epoch⟩)

/-- Model of the checkpoint-restore block of `__main__`:
`model.load_state_dict(checkpoint["state_dict"])`, the optimizer state
unless `--reset-optimizer` was given, then `global_step` and
`global_epoch`. -/
def load_checkpoint {Θ Ω : Type} (checkpoint : Checkpoint Θ Ω)
    (cur : TrainState Θ Ω) (reset_optimizer : Bool) : TrainState Θ Ω :=
  { model := checkpoint.state_dict,
    opt := if reset_optimizer then cur.opt else checkpoint.optimizer,
    global_step := checkpoint.global_step,
    global_epoch := checkpoint.global_epoch }

/-! ### Helper lemmas -/

lemma le_foldr_max (l : List ℕ) (x : ℕ) (hx : x ∈ l) : x ≤ l.foldr max 0 := by
  induction l with
  | nil => cases hx
  | cons a l ih =>
    rcases List.mem_cons.mp hx with h | h
    · simp [h, le_max_iff]
    · exact le_trans (ih h) (le_max_right _ _)

lemma round_to_mod (m s : ℕ) (hs : 0 < s) : round_to m s % s = 0 := by
  unfold round_to
  by_cases h : m % s = 0
  · simp [h]
  · rw [if_pos h]
    have h1 : m % s < s := Nat.mod_lt _ hs
    have h3 := Nat.div_add_mod m s
    have h2 : m + (s - m % s) = s * (m / s) + s := by omega
    rw [h2, Nat.mul_add_mod, Nat.mod_self]

lemma le_round_to (m s : ℕ) : m ≤ round_to m s := by
  unfold round_to
  split <;> omega

lemma round_to_one (m : ℕ) : round_to m 1 = m := by
  unfold round_to
  simp [Nat.mod_one]

lemma isSome_bind {α β : Type} (o : Option α) (f : α → Option β) :
    (o.bind f).isSome = true ↔ ∃ a, o = some a ∧ (f a).isSome = true := by
  cases o <;> simp

lemma seqOpt_isSome {α β : Type} (f : α → Option β) (l : List α) :
    (seqOpt f l).isSome = true ↔ ∀ a ∈ l, (f a).isSome = true := by
  induction l with
  | nil => simp [seqOpt]
  | cons a l ih =>
    simp only [seqOpt, isSome_bind, List.mem_cons]
    constructor
    · rintro ⟨b, hb, hrest⟩ x hx
      rcases hx with rfl | hx
      · simp [hb]
      · rcases hrest with ⟨bs, hbs, -⟩
        exact (ih.mp (by simp [hbs])) x hx
    · intro h
      rcases Option.isSome_iff_exists.mp (h a (Or.inl rfl)) with ⟨b, hb⟩
      refine ⟨b, hb, ?_⟩
      rcases Option.isSome_iff_exists.mp (ih.mpr fun x hx => h x (Or.inr hx)) with
        ⟨bs, hbs⟩
      exact ⟨bs, hbs, by simp⟩

lemma pad1d_isSome {α : Type} (seq : List α) (m : ℕ) (c : α) :
    (pad1d seq m c).isSome = true ↔ seq.length ≤ m := by
  unfold pad1d
  split <;> simp_all

lemma pad2d_isSome (x : List (List ℚ)) (m b : ℕ) :
    (pad2d x m b).isSome = true ↔ x.length + b ≤ m := by
  unfold pad2d
  split <;> simp_all

lemma npzeros_eq (n : ℤ) (h : 0 ≤ n) : npzeros n = some (List.replicate n.toNat 0) := by
  simp [npzeros, h]

lemma done_flags_isSome (r ds L mdtl : ℕ) :
    (done_flags r ds L mdtl).isSome = true ↔
      1 ≤ L / r / ds ∧ L / r / ds - 1 ≤ mdtl := by
  unfold done_flags
  by_cases h : 1 ≤ L / r / ds
  · have h0 : (0 : ℤ) ≤ (L / r / ds : ℕ) - 1 := by omega
    rw [npzeros_eq _ h0]
    have ht : (((L / r / ds : ℕ) : ℤ) - 1).toNat = L / r / ds - 1 := by omega
    simp only [Option.bind_eq_bind, Option.some_bind, ht, pad1d_isSome,
      List.length_replicate]
    exact ⟨fun hle => ⟨h, hle⟩, fun hc => hc.2⟩
  · have h0 : ¬ (0 : ℤ) ≤ (L / r / ds : ℕ) - 1 := by omega
    unfold npzeros
    rw [if_neg h0]
    simp [h]

lemma replicate_append_eq_range_map {α : Type} (a b : α) (k m : ℕ) (hk : k ≤ m) :
    List.replicate k a ++ List.replicate (m - k) b
      = (List.range m).map (fun i => if i < k then a else b) := by
  apply List.ext_getElem
  · simp; omega
  · intro i h1 h2
    simp only [List.getElem_map, List.getElem_range]
    by_cases hik : i < k
    · rw [List.getElem_append_left (by simpa using hik)]
      simp [hik]
    · rw [List.getElem_append_right (by simpa using hik)]
      simp [hik]

lemma mdtl_of_eq (r ds : ℕ) (hr : 0 < r) (hds : 0 < ds) (batch : List UttRec) :
    mdtl_of r ds batch =
      round_to (round_to ((batch.map fun x => x.mel.length).foldr max 0) r) ds
        / r / ds + 1 := by
  unfold mdtl_of mtl_of max_target_len_of
  rw [Nat.add_mul_div_left _ _ hr, Nat.add_div_right _ hds]

/-! ### Claim theorems -/

/-- C1 (counterexample): the padded output length is NOT always such that,
after subtracting the leading `b_pad * downsample_step` frames, the remainder
is divisible by `outputs_per_step * downsample_step`.  With `r = 2`,
`ds = 2` and a single utterance of 6 mel frames, `collate_fn` succeeds with
`max_target_len = 10`, and `10 - 2*2 = 6` leaves remainder `2` modulo
`2*2 = 4`. -/
theorem C1_counterexample :
    max_target_len_of 2 2 [6] = 10 ∧
    (max_target_len_of 2 2 [6] - 2 * 2) % (2 * 2) = 2 ∧
    (collate_fn 2 2 [⟨[1], List.replicate 6 [0], List.replicate 6 [0]⟩]).isSome
      = true :=
  ⟨by decide, by decide, by decide⟩

/-- C1 (amended): for every non-empty batch, the padded output length computed
by `collate_fn` (raw max mel length rounded up to a multiple of
`outputs_per_step`, then up to a multiple of `downsample_step`, then increased
by `b_pad * downsample_step` leading frames with `b_pad = outputs_per_step`)
is such that, after subtracting the leading `b_pad` block, the remaining time
dimension is divisible by `downsample_step`; it is moreover divisible by
`outputs_per_step * downsample_step` whenever `downsample_step = 1` (the
second rounding can break divisibility by `outputs_per_step` otherwise). -/
theorem C1_padded_length_divisibility (r ds : ℕ) (tlens : List ℕ)
    (hr : 0 < r) (hds : 0 < ds) :
    (max_target_len_of r ds tlens - r * ds) % ds = 0 ∧
    (ds = 1 → (max_target_len_of r ds tlens - r * ds) % (r * ds) = 0) := by
  unfold max_target_len_of
  rw [Nat.add_sub_cancel]
  refine ⟨round_to_mod _ _ hds, ?_⟩
  rintro rfl
  rw [round_to_one, mul_one]
  exact round_to_mod _ _ hr

/-- Witness for `C1_padded_length_divisibility` at `r = 5`, `ds = 1`,
mel lengths `[10, 14]`. -/
theorem C1_padded_length_divisibility_witness :
    0 < 5 ∧ 0 < 1 ∧
    (max_target_len_of 5 1 [10, 14] - 5 * 1) % 1 = 0 ∧
    (max_target_len_of 5 1 [10, 14] - 5 * 1) % (5 * 1) = 0 :=
  ⟨by decide, by decide,
   (C1_padded_length_divisibility 5 1 [10, 14] (by decide) (by decide)).1,
   (C1_padded_length_divisibility 5 1 [10, 14] (by decide) (by decide)).2 rfl⟩

/-- C2 (counterexample): the "done" row is NOT zero at every real decoder
step.  With `r = 5`, `ds = 1`, one utterance of `L = 10` mel frames and
`max_decoder_target_len = 4` (which is what `collate_fn` computes for that
batch), the code builds `[0, 1, 1, 1]`; decoder step 2 covers padded rows
10–14, which lie inside the true-frame rows 5–14, yet its done flag is `1`,
not `0`.  (`max_decoder_target_len = 4` is what `collate_fn` computes for the
two-utterance batch with mel lengths 10 and 14.) -/
theorem C2_counterexample :
    done_flags 5 1 10 4 = some [0, 1, 1, 1] ∧
    mdtl_of 5 1 [⟨[1], List.replicate 10 [0], List.replicate 10 [0]⟩,
      ⟨[1], List.replicate 14 [0], List.replicate 14 [0]⟩] = 4 ∧
    step_covers_true_frames 5 1 10 2 = true ∧
    ([0, 1, 1, 1] : List ℚ).getD 2 0 = 1 :=
  ⟨by decide, by decide, by decide, by decide⟩

/-- C2 (amended): the "done" row built by `collate_fn` for an utterance of
`L` mel frames consists of `L / r / ds - 1` zeros followed by ones (padded
to length `max_decoder_target_len`): it is `0` exactly at decoder steps `i`
with `i + 1 < L / r / ds` and `1` from step `L / r / ds - 1` onward.  The
first `1` therefore appears while true mel frames are still being decoded:
in the padded tensor (whose first `b_pad * ds = r * ds` rows are leading
padding) the last true frame lies in decoder step `⌊(L-1)/(r*ds)⌋ + 1`,
strictly after step `⌊L/(r*ds)⌋ - 1` where the first `1` appears — so the
flag is `1` not only on the padded tail. -/
theorem C2_done_flags (r ds L mdtl : ℕ) (hr : 0 < r) (hds : 0 < ds)
    (hL : r * ds ≤ L) (hm : L / r / ds ≤ mdtl) :
    done_flags r ds L mdtl = some (done_amended r ds L mdtl) ∧
    L / r / ds - 1 < (r * ds + L - 1) / (r * ds) := by
  have hrds : 0 < r * ds := Nat.mul_pos hr hds
  have hlast : L / r / ds - 1 < (r * ds + L - 1) / (r * ds) := by
    rw [Nat.div_div_eq_div_mul]
    obtain ⟨m, rfl⟩ := Nat.exists_eq_add_of_le hL
    have h1 : r * ds + (r * ds + m) - 1 = (r * ds + m - 1) + (r * ds) := by
      omega
    rw [h1, Nat.add_div_right _ hrds, Nat.add_div_left _ hrds,
      Nat.add_sub_cancel]
    have h2 : m / (r * ds) ≤ (r * ds + m - 1) / (r * ds) :=
      Nat.div_le_div_right (by omega)
    exact Nat.lt_succ_of_le h2
  refine ⟨?_, hlast⟩
  have hn : 1 ≤ L / r / ds := by
    rw [Nat.div_div_eq_div_mul]
    exact (Nat.one_le_div_iff hrds).mpr hL
  unfold done_flags
  have h0 : (0 : ℤ) ≤ (L / r / ds : ℕ) - 1 := by omega
  rw [npzeros_eq _ h0]
  have ht : (((L / r / ds : ℕ) : ℤ) - 1).toNat = L / r / ds - 1 := by omega
  simp only [Option.bind_eq_bind, Option.some_bind, ht]
  unfold pad1d
  rw [if_pos (by simp; omega)]
  rw [List.length_replicate]
  rw [replicate_append_eq_range_map (0 : ℚ) 1 (L / r / ds - 1) mdtl (by omega)]
  unfold done_amended
  congr 1
  apply List.map_congr_left
  intro i _
  have : i + 1 < L / r / ds ↔ i < L / r / ds - 1 := by omega
  simp only [this]

/-- Witness for `C2_done_flags` at `r = 5`, `ds = 1`, `L = 14`, `mdtl = 4`. -/
theorem C2_done_flags_witness :
    0 < 5 ∧ 0 < 1 ∧ 5 * 1 ≤ 14 ∧ 14 / 5 / 1 ≤ 4 ∧
    (done_flags 5 1 14 4 = some (done_amended 5 1 14 4) ∧
     14 / 5 / 1 - 1 < (5 * 1 + 14 - 1) / (5 * 1)) :=
  ⟨by decide, by decide, by decide, by decide,
   C2_done_flags 5 1 14 4 (by decide) (by decide) (by decide) (by decide)⟩

/-- C10: `collate_fn` completes without error on a non-empty batch of
non-empty utterance records (whose linear and mel spectrograms have matching
frame counts, the dataset invariant) if and only if every mel sequence has at
least `outputs_per_step * downsample_step` frames: under that precondition
every padding amount passed to `_pad` and `_pad_2d` is non-negative and every
done-array size `len(mel) // r // downsample_step - 1` is non-negative, while
a shorter mel sequence makes that size negative, so `np.zeros` fails. -/
theorem C10_collate_total (r ds : ℕ) (batch : List UttRec) (hr : 0 < r)
    (hds : 0 < ds) (hne : batch ≠ []) (hlin : lin_matches_mel batch) :
    (collate_fn r ds batch).isSome = true ↔ mels_long_enough r ds batch := by
  have hrds : 0 < r * ds := Nat.mul_pos hr hds
  have hmtl_ge : ∀ x ∈ batch, x.mel.length + r ≤ mtl_of r ds batch := by
    intro x hx
    have h1 : x.mel.length ≤ (batch.map fun x => x.mel.length).foldr max 0 :=
      le_foldr_max _ _ (List.mem_map_of_mem _ hx)
    have h2 := le_round_to ((batch.map fun x => x.mel.length).foldr max 0) r
    have h3 := le_round_to
      (round_to ((batch.map fun x => x.mel.length).foldr max 0) r) ds
    have h4 : r * 1 ≤ r * ds := Nat.mul_le_mul_left r hds
    unfold mtl_of max_target_len_of
    omega
  have hmdtl : ∀ x ∈ batch, x.mel.length / r / ds + 1 ≤ mdtl_of r ds batch := by
    intro x hx
    rw [mdtl_of_eq r ds hr hds]
    have h1 : x.mel.length ≤ (batch.map fun x => x.mel.length).foldr max 0 :=
      le_foldr_max _ _ (List.mem_map_of_mem _ hx)
    have h2 : x.mel.length ≤
        round_to (round_to ((batch.map fun x => x.mel.length).foldr max 0) r) ds :=
      le_trans h1 (le_trans (le_round_to _ _) (le_round_to _ _))
    have h3 : x.mel.length / r / ds ≤
        round_to (round_to ((batch.map fun x => x.mel.length).foldr max 0) r) ds
          / r / ds :=
      Nat.div_le_div_right (Nat.div_le_div_right h2)
    omega
  have h1 : ∀ x ∈ batch, (pad1d x.text (input_max batch) 0).isSome = true := by
    intro x hx
    rw [pad1d_isSome]
    exact le_foldr_max _ _ (List.mem_map_of_mem _ hx)
  have h2 : ∀ x ∈ batch, (pad2d x.mel (mtl_of r ds batch) r).isSome = true := by
    intro x hx
    rw [pad2d_isSome]
    exact hmtl_ge x hx
  have h3 : ∀ x ∈ batch, (pad2d x.lin (mtl_of r ds batch) r).isSome = true := by
    intro x hx
    rw [pad2d_isSome, hlin x hx]
    exact hmtl_ge x hx
  have h4 : ∀ x ∈ batch,
      (pad1d ((List.range x.text.length).map (fun i : ℕ => (i : ℤ) + 1))
        (input_max batch) 0).isSome = true := by
    intro x hx
    rw [pad1d_isSome]
    have hlen : ((List.range x.text.length).map (fun i : ℕ => (i : ℤ) + 1)).length
        = x.text.length := by
      simp
    rw [hlen]
    exact le_foldr_max _ _ (List.mem_map_of_mem _ hx)
  unfold collate_fn
  obtain ⟨a, ha⟩ := Option.isSome_iff_exists.mp ((seqOpt_isSome _ _).mpr h1)
  obtain ⟨b, hb⟩ := Option.isSome_iff_exists.mp ((seqOpt_isSome _ _).mpr h2)
  obtain ⟨c, hc⟩ := Option.isSome_iff_exists.mp ((seqOpt_isSome _ _).mpr h3)
  obtain ⟨tp, htp⟩ := Option.isSome_iff_exists.mp ((seqOpt_isSome _ _).mpr h4)
  rw [ha, hb, hc, htp]
  simp only [Option.some_bind]
  constructor
  · intro hs
    have h5 : (seqOpt
        (fun x => done_flags r ds x.mel.length (mdtl_of r ds batch))
        batch).isSome = true := by
      cases hstate : seqOpt
          (fun x => done_flags r ds x.mel.length (mdtl_of r ds batch)) batch with
      | none => rw [hstate] at hs; simp at hs
      | some d => simp
    intro x hx
    have hx5 := ((seqOpt_isSome _ _).mp h5) x hx
    rw [done_flags_isSome] at hx5
    have h6 := hx5.1
    rw [Nat.div_div_eq_div_mul] at h6
    exact (Nat.one_le_div_iff hrds).mp h6
  · intro hmel
    have h5 : ∀ x ∈ batch,
        (done_flags r ds x.mel.length (mdtl_of r ds batch)).isSome = true := by
      intro x hx
      rw [done_flags_isSome]
      constructor
      · rw [Nat.div_div_eq_div_mul]
        exact (Nat.one_le_div_iff hrds).mpr (hmel x hx)
      · have := hmdtl x hx
        omega
    obtain ⟨d, hd⟩ := Option.isSome_iff_exists.mp ((seqOpt_isSome _ _).mpr h5)
    rw [hd]
    simp

/-- Batch used by the witness of `C10_collate_total`. -/
def w10_batch : List UttRec := [⟨[1], [[0]], [[0]]⟩]

/-- Witness for `C10_collate_total` at `r = ds = 1` and a one-record batch. -/
theorem C10_collate_total_witness :
    0 < 1 ∧ w10_batch ≠ [] ∧ lin_matches_mel w10_batch ∧
    ((collate_fn 1 1 w10_batch).isSome = true ↔ mels_long_enough 1 1 w10_batch) :=
  ⟨by decide, by decide, by decide,
   C10_collate_total 1 1 w10_batch (by decide) (by decide) (by decide)
     (by decide)⟩

/-- C4: for a 0/1 mask, `MaskedL1Loss.forward` returns
`sum(|pred - target| * mask) / sum(mask broadcast over D)`, and with an
all-ones mask it equals the unweighted mean absolute error. -/
theorem C4_maskedL1_formula (B T D : ℕ)
    (input target : Fin B → Fin T → Fin D → ℚ) (mask : Fin B → Fin T → ℚ)
    (hm : binary_mask B T mask) :
    maskedL1_forward B T D input target mask
      = masked_l1_spec B T D input target mask ∧
    maskedL1_forward B T D input target (ones_mask B T)
      = l1_mean B T D input target := by
  constructor
  · unfold maskedL1_forward masked_l1_spec l1_loss_sum
    congr 1
    · apply Finset.sum_congr rfl
      intro b _
      apply Finset.sum_congr rfl
      intro t _
      apply Finset.sum_congr rfl
      intro d _
      rcases hm b t with h | h <;> simp [h, mul_sub]
    · simp only [Finset.sum_const, Finset.card_univ, Fintype.card_fin,
        nsmul_eq_mul, Finset.mul_sum]
  · unfold maskedL1_forward ones_mask l1_mean l1_loss_sum
    simp only [mul_one, Finset.sum_const, Finset.card_univ, Fintype.card_fin,
      nsmul_eq_mul]
    congr 1
    ring

/-- Tensors used by the witness of `C4_maskedL1_formula`. -/
def w4_input : Fin 1 → Fin 2 → Fin 1 → ℚ :=
  fun _ t _ => if (t : ℕ) = 0 then 3 else 5

/-- Target tensor used by the witness of `C4_maskedL1_formula`. -/
def w4_target : Fin 1 → Fin 2 → Fin 1 → ℚ := fun _ _ _ => 1

/-- Mask used by the witness of `C4_maskedL1_formula`. -/
def w4_mask : Fin 1 → Fin 2 → ℚ := fun _ t => if (t : ℕ) = 0 then 1 else 0

/-- Witness for `C4_maskedL1_formula` on concrete `1 × 2 × 1` tensors. -/
theorem C4_maskedL1_formula_witness :
    binary_mask 1 2 w4_mask ∧
    maskedL1_forward 1 2 1 w4_input w4_target w4_mask
      = masked_l1_spec 1 2 1 w4_input w4_target w4_mask ∧
    maskedL1_forward 1 2 1 w4_input w4_target (ones_mask 1 2)
      = l1_mean 1 2 1 w4_input w4_target :=
  ⟨by decide, (C4_maskedL1_formula 1 2 1 w4_input w4_target w4_mask
      (by decide)).1,
   (C4_maskedL1_formula 1 2 1 w4_input w4_target w4_mask (by decide)).2⟩

/-- C5: `MaskedL1Loss.forward` called with `lengths` (mask built by
`sequence_mask` as position index < length) returns the same value on any
two prediction/target pairs that agree at all valid positions and differ
only on padding. -/
theorem C5_maskedL1_padding_invariant (B T D : ℕ)
    (input input' target target' : Fin B → Fin T → Fin D → ℚ)
    (lengths : Fin B → ℕ)
    (hin : agree_on_valid B T D lengths input input')
    (htg : agree_on_valid B T D lengths target target') :
    maskedL1_forward_lengths B T D input target lengths
      = maskedL1_forward_lengths B T D input' target' lengths := by
  unfold maskedL1_forward_lengths maskedL1_forward
  congr 1
  unfold l1_loss_sum
  apply Finset.sum_congr rfl
  intro b _
  apply Finset.sum_congr rfl
  intro t _
  apply Finset.sum_congr rfl
  intro d _
  unfold sequence_mask
  dsimp only
  by_cases h : (t : ℕ) < lengths b
  · rw [if_pos h, hin b t d h, htg b t d h]
  · rw [if_neg h]
    simp

/-- Lengths used by the witness of `C5_maskedL1_padding_invariant`. -/
def w5_len : Fin 1 → ℕ := fun _ => 1

/-- Prediction tensor used by the witness of
`C5_maskedL1_padding_invariant`. -/
def w5_input : Fin 1 → Fin 2 → Fin 1 → ℚ :=
  fun _ t _ => if (t : ℕ) = 0 then 2 else 7

/-- Prediction tensor differing from `w5_input` only at the padded position
`t = 1`. -/
def w5_input' : Fin 1 → Fin 2 → Fin 1 → ℚ :=
  fun _ t _ => if (t : ℕ) = 0 then 2 else 9

/-- Target tensor used by the witness of
`C5_maskedL1_padding_invariant`. -/
def w5_target : Fin 1 → Fin 2 → Fin 1 → ℚ := fun _ _ _ => 0

/-- Witness for `C5_maskedL1_padding_invariant`: two predictions differing
only at a padded position give the same masked loss. -/
theorem C5_maskedL1_padding_invariant_witness :
    agree_on_valid 1 2 1 w5_len w5_input w5_input' ∧
    agree_on_valid 1 2 1 w5_len w5_target w5_target ∧
    maskedL1_forward_lengths 1 2 1 w5_input w5_target w5_len
      = maskedL1_forward_lengths 1 2 1 w5_input' w5_target w5_len :=
  ⟨by decide, by decide,
   C5_maskedL1_padding_invariant 1 2 1 w5_input w5_input' w5_target w5_target
     w5_len (by decide) (by decide)⟩

/-- C9: `MaskedL1Loss.forward` raises exactly when both `lengths` and `mask`
are absent; with at least one present it returns a loss value. -/
theorem C9_maskedL1_error_iff (B T D : ℕ)
    (input target : Fin B → Fin T → Fin D → ℚ)
    (lengths : Option (Fin B → ℕ)) (mask : Option (Fin B → Fin T → ℚ)) :
    except_is_error (maskedL1_forwardE B T D input target lengths mask) = true
      ↔ lengths = none ∧ mask = none := by
  cases lengths <;> cases mask <;>
    simp [maskedL1_forwardE, except_is_error]

lemma getD_take {α : Type} (n i : ℕ) (l : List α) (d : α) :
    (l.take n).getD i d = if i < n then l.getD i d else d := by
  rw [List.getD_eq_getElem?_getD, List.getElem?_take,
    List.getD_eq_getElem?_getD]
  split <;> simp

lemma getD_drop {α : Type} (n i : ℕ) (l : List α) (d : α) :
    (l.drop n).getD i d = l.getD (n + i) d := by
  rw [List.getD_eq_getElem?_getD, List.getElem?_drop,
    List.getD_eq_getElem?_getD]

lemma getD_map_nil {α β : Type} (f : List α → List β) (hf : f [] = [])
    (l : List (List α)) (b : ℕ) :
    (l.map f).getD b [] = f (l.getD b []) := by
  rcases lt_or_ge b l.length with h | h
  · rw [List.getD_eq_getElem _ _ (by simpa using h), List.getElem_map,
      List.getD_eq_getElem _ _ h]
  · rw [List.getD_eq_default _ _ (by simpa using h),
      List.getD_eq_default _ _ h, hf]

/-- C3 (amended): the mel and linear loss terms do compare predictions
against ground truth shifted by one output-step block — row `i` of the
prediction slice `[:, :-r, :]` is row `i` of the prediction, row `i` of the
target slice `[:, r:, :]` is row `r + i` of the target — but the done-flag
loss does not: `binary_criterion(done_hat, done)` receives both tensors
whole, with no shift (the done targets are instead built one decoder block
short inside `collate_fn`). -/
theorem C3_loss_alignment (r : ℕ) (mel_outputs mel linear_outputs y
    done_hat done : List (List (List ℚ))) :
    (∀ b i, ((mel_loss_inputs r mel_outputs mel).1.getD b []).getD i []
        = if i < (mel_outputs.getD b []).length - r then
            (mel_outputs.getD b []).getD i [] else []) ∧
    (∀ b i, ((mel_loss_inputs r mel_outputs mel).2.getD b []).getD i []
        = (mel.getD b []).getD (r + i) []) ∧
    (∀ b i, ((linear_loss_inputs r linear_outputs y).1.getD b []).getD i []
        = if i < (linear_outputs.getD b []).length - r then
            (linear_outputs.getD b []).getD i [] else []) ∧
    (∀ b i, ((linear_loss_inputs r linear_outputs y).2.getD b []).getD i []
        = (y.getD b []).getD (r + i) []) ∧
    done_loss_inputs done_hat done = (done_hat, done) := by
  refine ⟨fun b i => ?_, fun b i => ?_, fun b i => ?_, fun b i => ?_, rfl⟩
  · unfold mel_loss_inputs
    rw [getD_map_nil (slice_drop_last r) (by simp [slice_drop_last])]
    unfold slice_drop_last
    exact getD_take _ _ _ _
  · unfold mel_loss_inputs
    rw [getD_map_nil (slice_drop_first r) (by simp [slice_drop_first])]
    unfold slice_drop_first
    exact getD_drop _ _ _ _
  · unfold linear_loss_inputs
    rw [getD_map_nil (slice_drop_last r) (by simp [slice_drop_last])]
    unfold slice_drop_last
    exact getD_take _ _ _ _
  · unfold linear_loss_inputs
    rw [getD_map_nil (slice_drop_first r) (by simp [slice_drop_first])]
    unfold slice_drop_first
    exact getD_drop _ _ _ _

/-- Predicted done tensor used by the counterexample of C3. -/
def w3_done_hat : List (List (List ℚ)) := [[[0], [1]]]

/-- Ground-truth done tensor used by the counterexample of C3. -/
def w3_done : List (List (List ℚ)) := [[[1], [0]]]

/-- C3 (counterexample): the done-flag loss does NOT use the shifted
alignment the claim states: with `r = 1` and concrete `[1, 2, 1]` tensors,
`binary_criterion` receives `(done_hat, done)` whole rather than
`(done_hat[:, :-r, :], done[:, r:, :])`. -/
theorem C3_counterexample :
    done_loss_inputs w3_done_hat w3_done
      ≠ (w3_done_hat.map (slice_drop_last 1), w3_done.map (slice_drop_first 1))
      := by
  decide

/-- C6: the guided attention matrix carries
`1 - exp(-((n/N - t/T)^2) / (2*g*g))` at every cell with `n < N`, `t < T` and
exactly `0` at every padded cell; every entry lies in `[0, 1)`, vanishes on
the exact diagonal `n/N = t/T`, and strictly increases with the squared
normalized distance from the diagonal. -/
theorem C6_guided_attention (N max_N T max_T : ℕ) (g : ℝ)
    (hN : N ≤ max_N) (hT : T ≤ max_T) (hg : 0 < g) :
    ga_formula_cells N max_N T max_T g ∧ ga_padded_zero N max_N T max_T g ∧
    ga_in_range N max_N T max_T g ∧ ga_diag_zero N max_N T max_T g ∧
    ga_mono N max_N T max_T g := by
  have hc : (0 : ℝ) < 2 * g * g := by positivity
  refine ⟨?_, ?_, ?_, ?_, ?_⟩
  · intro n t hn ht
    unfold guided_attention
    rw [if_pos ⟨hn, ht⟩]
  · intro n t hnt
    unfold guided_attention
    rw [if_neg hnt]
  · intro n t
    unfold guided_attention
    by_cases hnt : (n : ℕ) < N ∧ (t : ℕ) < T
    · rw [if_pos hnt]
      constructor
      · have harg : -(((n : ℕ) : ℝ) / (N : ℝ) - ((t : ℕ) : ℝ) / (T : ℝ)) ^ 2
            / (2 * g * g) ≤ 0 := by
          apply div_nonpos_of_nonpos_of_nonneg
          · exact neg_nonpos.mpr (sq_nonneg _)
          · exact le_of_lt hc
        have := Real.exp_le_one_iff.mpr harg
        linarith
      · have := Real.exp_pos (-(((n : ℕ) : ℝ) / (N : ℝ)
          - ((t : ℕ) : ℝ) / (T : ℝ)) ^ 2 / (2 * g * g))
        linarith
    · rw [if_neg hnt]
      norm_num
  · intro n t hn ht hdiag
    unfold guided_attention
    rw [if_pos ⟨hn, ht⟩]
    rw [sub_eq_zero_of_eq hdiag]
    simp
  · intro n n' t t' hn ht hn' ht' hlt
    unfold guided_attention
    rw [if_pos ⟨hn, ht⟩, if_pos ⟨hn', ht'⟩]
    have hexp : Real.exp (-(((n' : ℕ) : ℝ) / (N : ℝ)
          - ((t' : ℕ) : ℝ) / (T : ℝ)) ^ 2 / (2 * g * g))
        < Real.exp (-(((n : ℕ) : ℝ) / (N : ℝ)
          - ((t : ℕ) : ℝ) / (T : ℝ)) ^ 2 / (2 * g * g)) := by
      apply Real.exp_lt_exp.mpr
      apply div_lt_div_of_pos_right ?_ hc
      exact neg_lt_neg hlt
    linarith

/-- Witness for `C6_guided_attention` at `N = max_N = T = max_T = 2`,
`g = 1`. -/
theorem C6_guided_attention_witness :
    2 ≤ 2 ∧ 2 ≤ 2 ∧ (0 : ℝ) < 1 ∧
    (ga_formula_cells 2 2 2 2 1 ∧ ga_padded_zero 2 2 2 2 1 ∧
     ga_in_range 2 2 2 2 1 ∧ ga_diag_zero 2 2 2 2 1 ∧ ga_mono 2 2 2 2 1) :=
  ⟨by decide, by decide, by norm_num,
   C6_guided_attention 2 2 2 2 1 (by decide) (by decide) (by norm_num)⟩

/-- C7: the noam scheduler equals
`init_lr * 4000^0.5 * min(step * 4000^-1.5, step^-0.5)` with
`step = global_step + 1`; it is non-negative for `init_lr ≥ 0`, equals
`init_lr / 4000` at `global_step = 0`, and is then strictly below `init_lr`
when `init_lr > 0`. -/
theorem C7_noam (init_lr : ℝ) (global_step : ℕ) (h : 0 ≤ init_lr) :
    noam_learning_rate_decay init_lr global_step
      = init_lr * (4000 : ℝ) ^ (0.5 : ℝ) *
        min (((global_step : ℝ) + 1) * (4000 : ℝ) ^ (-1.5 : ℝ))
          (((global_step : ℝ) + 1) ^ (-0.5 : ℝ)) ∧
    0 ≤ noam_learning_rate_decay init_lr global_step ∧
    noam_learning_rate_decay init_lr 0 = init_lr / 4000 ∧
    (0 < init_lr → noam_learning_rate_decay init_lr 0 < init_lr) := by
  have hstep : (0 : ℝ) ≤ (global_step : ℝ) + 1 := by positivity
  have hmin : min ((1 : ℝ) * (4000 : ℝ) ^ (-1.5 : ℝ)) ((1 : ℝ) ^ (-0.5 : ℝ))
      = (4000 : ℝ) ^ (-1.5 : ℝ) := by
    rw [one_mul, Real.one_rpow]
    exact min_eq_left
      (Real.rpow_le_one_of_one_le_of_nonpos (by norm_num) (by norm_num))
  have hzero : noam_learning_rate_decay init_lr 0 = init_lr / 4000 := by
    unfold noam_learning_rate_decay
    rw [Nat.cast_zero, zero_add, hmin, mul_assoc,
      ← Real.rpow_add (by norm_num : (0 : ℝ) < 4000)]
    norm_num
    ring
  refine ⟨rfl, ?_, hzero, ?_⟩
  · unfold noam_learning_rate_decay
    apply mul_nonneg
    · exact mul_nonneg h (Real.rpow_nonneg (by norm_num) _)
    · apply le_min
      · exact mul_nonneg hstep (Real.rpow_nonneg (by norm_num) _)
      · exact Real.rpow_nonneg hstep _
  · intro hpos
    rw [hzero]
    exact div_lt_self hpos (by norm_num)

/-- Witness for `C7_noam` at `init_lr = 1`, `global_step = 0`. -/
theorem C7_noam_witness :
    (0 : ℝ) ≤ 1 ∧ (0 : ℝ) < 1 ∧
    noam_learning_rate_decay 1 0 = 1 / 4000 ∧
    0 ≤ noam_learning_rate_decay 1 0 ∧
    noam_learning_rate_decay 1 0 < 1 :=
  ⟨by norm_num, by norm_num, (C7_noam 1 0 (by norm_num)).2.2.1,
   (C7_noam 1 0 (by norm_num)).2.1,
   (C7_noam 1 0 (by norm_num)).2.2.2 (by norm_num)⟩

/-- C8: saving a checkpoint at step `S` (both the `step` argument and the
module-level `global_step` equal `S` at every call site) and restoring it
without `--reset-optimizer` yields back exactly the saved model parameters,
optimizer parameters, `global_step = S` and the saved epoch; the stored
record has exactly those four fields, and the file name embeds the step as a
zero-padded 9-digit number. -/
theorem C8_checkpoint_roundtrip {Θ Ω : Type} (model : Θ) (optimizer : Ω)
    (S E : ℕ) (cur : TrainState Θ Ω) :
    load_checkpoint (save_checkpoint model optimizer S E S).2 cur false
      = ⟨model, optimizer, S, E⟩ ∧
    (save_checkpoint model optimizer S E S).2
      = ⟨model, optimizer, S, E⟩ ∧
    (save_checkpoint model optimizer S E S).1
      = "checkpoint_step" ++ zero_pad9 S ++ ".pth" ∧
    ((toString S).length ≤ 9 → (zero_pad9 S).length = 9) := by
  refine ⟨rfl, rfl, rfl, fun h9 => ?_⟩
  unfold zero_pad9
  rw [String.length_append]
  simp only [String.length_mk, List.length_replicate]
  have : (toString S).length = (toString S).length := rfl
  omega

/-- Witness for `C8_checkpoint_roundtrip` with natural-number parameter
stores at step 123, epoch 2. -/
theorem C8_checkpoint_roundtrip_witness :
    (toString 123).length ≤ 9 ∧
    load_checkpoint (save_checkpoint (5 : ℕ) (7 : ℕ) 123 2 123).2
        ⟨0, 0, 0, 0⟩ false = ⟨5, 7, 123, 2⟩ ∧
    (save_checkpoint (5 : ℕ) (7 : ℕ) 123 2 123).1
      = "checkpoint_step" ++ zero_pad9 123 ++ ".pth" ∧
    (zero_pad9 123).length = 9 :=
  ⟨by decide, (C8_checkpoint_roundtrip 5 7 123 2 ⟨0, 0, 0, 0⟩).1,
   (C8_checkpoint_roundtrip 5 7 123 2 ⟨0, 0, 0, 0⟩).2.2.1,
   (C8_checkpoint_roundtrip 5 7 123 2 ⟨0, 0, 0, 0⟩).2.2.2 (by decide)⟩

end DV3
